import Mathlib

/-!
Shallow embedding of the tradleconf core (stack lifecycle manager and
command dispatch layer) and proofs about it.

JS strings are modelled as `List Char` where index arithmetic matters and
as `String` elsewhere.  Fallible JS code is modelled with `Except` /
`Option`; `async` sequencing collapses to pure sequencing since every
claim is about a single sequential call.
-/

/-- JS truthiness of a possibly-absent string (`undefined` or `''` are falsy). -/
def jsTruthyStr : Option String → Bool
  | none => false
  | some s => !s.isEmpty

/-- Index set at which `pat` occurs in `s` (as list of ascending indices).
Mirrors the search space of JS `String.prototype.lastIndexOf`. -/
def occurrenceIndices (pat s : List Char) : List Nat :=
  (List.range (s.length + 1)).filter (fun i => pat.isPrefixOf (s.drop i))

/-- JS `s.lastIndexOf(pat)`: greatest index at which `pat` occurs, `-1` (here
`none`) when it does not occur. -/
def jsLastIndexOf (pat s : List Char) : Option Nat :=
  (occurrenceIndices pat s).getLast?

/-- Model of `getLongFunctionName` from `src/conf.ts`: return `functionName` unchanged
when `functionName.lastIndexOf(stackName) === 0`, else prefix with
`stackName + "-"`. -/
def getLongFunctionName (stackName functionName : List Char) : List Char :=
  if jsLastIndexOf stackName functionName = some 0 then functionName
  else stackName ++ '-' :: functionName

/-- JS `s.includes(pat)`. -/
def jsIncludes (pat s : List Char) : Bool :=
  !(occurrenceIndices pat s).isEmpty

/-- Model of `isUpdateableStatus` from `src/utils.ts`:
`status.endsWith('_COMPLETE') && !status.startsWith('DELETE_')`. -/
def isUpdateableStatus (status : List Char) : Bool :=
  ("_COMPLETE".data.isSuffixOf status) && !("DELETE_".data.isPrefixOf status)

/-- A stack summary as returned by the CloudFormation `listStacks` page
(`StackId`, `StackName`, `StackStatus`). -/
structure StackSummary where
  StackId : String
  StackName : String
  StackStatus : List Char
deriving DecidableEq, Repr

/-- One page of a paginated `listStacks` backend response: the summaries plus
the continuation token (`NextToken`), absent or empty on the last page. -/
structure StacksPage where
  StackSummaries : List StackSummary
  NextToken : Option String
deriving DecidableEq, Repr

/-- The pagination loop of `listStacks` from `src/utils.ts`, run against a
backend that serves the given pages in order.  Each iteration filters the
page's summaries, maps them to `(id, name)` records, stores the page's
`NextToken` and loops while that token is truthy.  Returns the accumulated
records together with the number of list calls issued; `none` models the
backend failing to answer a re-issued call. -/
def listStacksGo (filter : StackSummary → Bool) :
    List StacksPage → Option (List (String × String) × Nat)
  | [] => none
  | p :: rest =>
    let batch := (p.StackSummaries.filter filter).map fun s => (s.StackId, s.StackName)
    if jsTruthyStr p.NextToken then
      match listStacksGo filter rest with
      | none => none
      | some (items, n) => some (batch ++ items, n + 1)
    else
      some (batch, 1)

/-- Model of `getStackId` from `src/utils.ts`: list stacks filtered by exact name match
and `isUpdateableStatus`, then return `stacks[0] && stacks[0].id`. -/
def getStackId (pages : List StacksPage) (stackName : String) : Option String :=
  match listStacksGo
      (fun s => s.StackName == stackName && isUpdateableStatus s.StackStatus) pages with
  | none => none
  | some (stackList, _) => stackList.head?.map Prod.fst

/-- A stack resource summary (`LogicalResourceId`, `PhysicalResourceId`,
`ResourceType`). -/
structure StackResourceSummary where
  LogicalResourceId : String
  PhysicalResourceId : String
  ResourceType : String
deriving DecidableEq, Repr

/-- One page of a paginated `listStackResources` backend response. -/
structure ResourcesPage where
  StackResourceSummaries : List StackResourceSummary
  NextToken : Option String
deriving DecidableEq, Repr

/-- The pagination loop of `listStackResources` from `src/utils.ts`: per page,
append the filtered summaries, store `NextToken` into the request options and
break when it is falsy.  Returns the accumulated resources and the number of
list calls; `none` models the backend failing to answer a re-issued call. -/
def listStackResourcesGo (filter : StackResourceSummary → Bool) :
    List ResourcesPage → Option (List StackResourceSummary × Nat)
  | [] => none
  | p :: rest =>
    let batch := p.StackResourceSummaries.filter filter
    if jsTruthyStr p.NextToken then
      match listStackResourcesGo filter rest with
      | none => none
      | some (items, n) => some (batch ++ items, n + 1)
    else
      some (batch, 1)

/-- Raw response of `lambda.invoke` (`StatusCode`, `Payload`, `FunctionError`),
consumed by `Conf._invoke` in `src/conf.ts`. -/
structure LambdaInvokeResult where
  StatusCode : Nat
  Payload : Option String
  FunctionError : Option String
deriving DecidableEq, Repr

/-- What a failing invocation throws. `errorObject m` is `new Error(m)`;
`jsTypeError` stands for the TypeError raised by `undefined.toString()`;
`parseFailure` is a `JSON.parse` throw. -/
inductive InvokeThrow (ε : Type) where
  | errorObject (message : String)
  | jsTypeError
  | parseFailure (e : ε)
deriving DecidableEq, Repr

/-- Model of `Conf._invoke` from `src/conf.ts` after the confirmation gate: treat a
truthy `FunctionError` or a status of at least 300 as failure, with
`Payload || FunctionError` as the thrown message; on success return
`JSON.parse(Payload.toString())`.  The JSON parser is a parameter. -/
def invokeRemote {ε α : Type} (parse : String → Except ε α)
    (r : LambdaInvokeResult) : Except (InvokeThrow ε) α :=
  if jsTruthyStr r.FunctionError || 300 ≤ r.StatusCode then
    .error
      (if jsTruthyStr r.Payload then
        .errorObject (r.Payload.getD "")
      else
        match r.FunctionError with
        | some fe => .errorObject fe
        | none => .jsTypeError)
  else
    match r.Payload with
    | none => .error .jsTypeError
    | some p =>
      match parse p with
      | .error e => .error (.parseFailure e)
      | .ok v => .ok v

/-- Raw outcome of the local emulator process used by `Conf._invokeLocal`:
exit code, the trimmed contents of the temp output file, and the captured
standard error. -/
structure LocalRunResult where
  exitCode : Int
  output : String
  errOutput : String
deriving DecidableEq, Repr

/-- Model of `Conf._invokeLocal` from `src/conf.ts` after the process ran: a non-zero
exit code throws `invoke failed: ...` with the output file contents (falling
back to stderr); otherwise `res && JSON.parse(res)` — an empty output file
yields no parsed value. -/
def invokeLocal {ε α : Type} (parse : String → Except ε α)
    (r : LocalRunResult) : Except (InvokeThrow ε) (Option α) :=
  if r.exitCode ≠ 0 then
    .error (.errorObject
      ("invoke failed: " ++ (if r.output.isEmpty then r.errOutput else r.output)))
  else if r.output.isEmpty then
    .ok none
  else
    match parse r.output with
    | .error e => .error (.parseFailure e)
    | .ok v => .ok (some v)

/-- The `{error} | {result}` envelope produced by `Conf.invoke`. -/
inductive InvokeEnvelope (ε α : Type) where
  | error (e : ε)
  | result (r : α)
deriving DecidableEq, Repr

def InvokeEnvelope.isError {ε α : Type} : InvokeEnvelope ε α → Bool
  | .error _ => true
  | .result _ => false

def InvokeEnvelope.isResult {ε α : Type} : InvokeEnvelope ε α → Bool
  | .error _ => false
  | .result _ => true

/-- Model of `Conf.invoke` from `src/conf.ts`: run the underlying local or remote
invocation inside try/catch; a throw becomes `{error}`, a normal return
becomes `{result}`.  The underlying invocation (already dispatched on
`local`) is the argument. -/
def confInvoke {ε α : Type} (underlying : Except ε α) : InvokeEnvelope ε α :=
  match underlying with
  | .error e => .error e
  | .ok v => .result v

/-- Model of `Conf.invokeAndReturn` from `src/conf.ts`: unwrap `invoke`'s envelope,
throwing the error when present and returning the result otherwise. -/
def confInvokeAndReturn {ε α : Type} (underlying : Except ε α) : Except ε α :=
  match confInvoke underlying with
  | .error e => .error e
  | .result v => .ok v

/-- The error taxonomy of `src/errors.ts` as used by the deploy path. -/
inductive ConfError where
  | invalidInput (message : String)
deriving DecidableEq, Repr

/-- The deploy/load options object: `args` plus the per-deployable flags.
A field is `none` when the corresponding key is absent from the JS object and
`some b` when present with boolean value `b` (lodash `_.pick`/`_.size` count
present keys regardless of truthiness). -/
structure DeployOpts where
  args : List String
  all : Option Bool
  bot : Option Bool
  style : Option Bool
  models : Option Bool
  modelsPack : Option Bool
  terms : Option Bool
deriving DecidableEq, Repr

/-- JS truthiness of a possibly-absent boolean. -/
def jsTruthyOptBool : Option Bool → Bool
  | none => false
  | some b => b

/-- Model of `_.size(getDeployables(opts))`: the number of deployable keys
(`bot`, `style`, `models`, `modelsPack`, `terms`) present on the object. -/
def getDeployablesSize (o : DeployOpts) : Nat :=
  ([o.bot, o.style, o.models, o.modelsPack, o.terms].filter Option.isSome).length

/-- Model of `_.extend({}, DEPLOY_ALL_OPTS, opts)`: every deployable key is set, with
the value from `opts` when the key is present there and `true` otherwise. -/
def extendWithDeployAll (o : DeployOpts) : DeployOpts :=
  { o with
    bot := some (o.bot.getD true)
    style := some (o.style.getD true)
    models := some (o.models.getD true)
    modelsPack := some (o.modelsPack.getD true)
    terms := some (o.terms.getD true) }

/-- Model of `normalizeDeployOpts` from `src/conf.ts`: reject unknown positional
arguments; compute `all = opts.all || !_.size(getDeployables(opts))`; when
`all` holds, extend with every deployable set; otherwise reject an empty
selection (unreachable) or pass the options through. -/
def normalizeDeployOpts (o : DeployOpts) : Except ConfError DeployOpts :=
  if o.args ≠ [] then
    .error (.invalidInput "unknown arguments")
  else if jsTruthyOptBool o.all || getDeployablesSize o == 0 then
    .ok (extendWithDeployAll o)
  else if getDeployablesSize o == 0 then
    .error (.invalidInput "you did not indicate anything to deploy")
  else
    .ok o

/-- The local configuration sources read by `getDeployItems`
(`./conf/style.json`, `./conf/terms-and-conditions.md`, `./models`,
`./lenses`, `./conf/bot.json`); `none`/`[]` model absent files. -/
structure ConfSources where
  style : Option String
  termsSrc : Option String
  models : List String
  lenses : List String
  bot : Option String
deriving DecidableEq, Repr

/-- The assembled deploy item set.  An outer `some` means the key was
assigned on the `parts` object; the inner option is the (possibly `null` /
`undefined`) value. -/
structure DeployItems where
  style : Option (Option String)
  terms : Option (Option String)
  modelsPack : Option String
  bot : Option (Option String)
deriving DecidableEq, Repr

/-- Model of `Conf.getDeployItems` from `src/conf.ts`: normalize the options, then
assemble `parts` — `style` from its file when requested, `terms` as contents
or `null`, `modelsPack` packed from models/lenses when any exist, `bot` from
its file.  Packing (`utils.pack` / ModelsPack) is a parameter. -/
def getDeployItems (packFn : List String → List String → String)
    (src : ConfSources) (o : DeployOpts) : Except ConfError DeployItems :=
  match normalizeDeployOpts o with
  | .error e => .error e
  | .ok opts =>
    .ok
      { style := if jsTruthyOptBool opts.style then some src.style else none
        terms :=
          if jsTruthyOptBool opts.terms then
            some (match src.termsSrc with
              | some s => if s.isEmpty then none else some s
              | none => none)
          else none
        modelsPack :=
          if jsTruthyOptBool opts.models
              && !(src.models.isEmpty && src.lenses.isEmpty) then
            some (packFn src.models src.lenses)
          else none
        bot := if jsTruthyOptBool opts.bot then some src.bot else none }

/-- One backend response to a `cloudformation.deleteStack` call: success or a
thrown error with the given message. -/
inductive DeleteAttempt where
  | success
  | failure (message : String)
deriving DecidableEq, Repr

/-- The transient-conflict marker `deleteStack` looks for in error messages. -/
def cleanupInProgressToken : String :=
  "UPDATE_ROLLBACK_COMPLETE_CLEANUP_IN_PROGRESS"

/-- The retry loop of `deleteStack` from `src/utils.ts`, run against a backend
that answers successive attempts with the given list.  `completed ds` records
the delays (`exports.wait(5000)`) observed between attempts before success;
`failed ds m` means the error `m` propagated after delays `ds`;
`outOfTrace` means the finite trace did not determine the loop's outcome. -/
def deleteStackRun : List DeleteAttempt → Option (Except (List Nat × String) (List Nat))
  | [] => none
  | .success :: _ => some (.ok [])
  | .failure m :: rest =>
    if jsIncludes cleanupInProgressToken.data m.data then
      match deleteStackRun rest with
      | none => none
      | some (.ok ds) => some (.ok (5000 :: ds))
      | some (.error (ds, m2)) => some (.error (5000 :: ds, m2))
    else
      some (.error ([], m))

/-- The deferred waiter returned by `deleteStack`: wait 5000 ms, then run the
provider's `stackDeleteComplete` waiter on the stack. -/
structure StackDeleteWaiter where
  preDelayMs : Nat
  event : String
  stackName : String
deriving DecidableEq, Repr

/-- Model of `deleteStack` from `src/utils.ts`: loop issuing the delete, retrying after
a fixed 5000 ms wait while the thrown message includes the cleanup-in-progress
marker, rethrowing any other error; on success return the deferred waiter. -/
def deleteStack (stackName : String) (trace : List DeleteAttempt) :
    Option (Except (List Nat × String) (List Nat × StackDeleteWaiter)) :=
  match deleteStackRun trace with
  | none => none
  | some (.error e) => some (.error e)
  | some (.ok ds) =>
    some (.ok (ds,
      { preDelayMs := 5000, event := "stackDeleteComplete", stackName }))

/-- An AWS service error, identified by its `code` property. -/
structure AwsErr where
  code : String
deriving DecidableEq, Repr

/-- S3 bucket store: a bucket name mapped to its list of object versions. -/
structure S3State where
  buckets : List (String × List String)
deriving DecidableEq, Repr

/-- Versions held by a bucket, `none` when the bucket does not exist. -/
def S3State.lookup (s : S3State) (b : String) : Option (List String) :=
  (s.buckets.find? fun p => p.1 == b).map Prod.snd

/-- Modelled from the spec: `emptyBucket` is imported by `destroyBucket` from
`src/empty-bucket.ts`, which is not under `src/`.  Spec section 4.2 —
"`empty(bucketId)`: paginates all object versions and delete markers, issues
batched deletes, repeats until the listing reports no more items."  A bucket
the store does not hold lists no items, so emptying it deletes nothing. -/
def emptyBucket (s : S3State) (b : String) : Except AwsErr S3State :=
  .ok { buckets := s.buckets.map fun p => if p.1 == b then (p.1, []) else p }

/-- Model of `s3.deleteBucket`: remove the bucket, raising `NoSuchBucket` when it does
not exist. -/
def deleteBucketOp (s : S3State) (b : String) : Except AwsErr S3State :=
  match s.lookup b with
  | none => .error { code := "NoSuchBucket" }
  | some _ => .ok { buckets := s.buckets.filter fun p => !(p.1 == b) }

/-- The error codes `destroyBucket` tells `Errors.ignore` to swallow. -/
def ignoredDeleteCodes : List String :=
  ["ResourceNotFoundException", "NoSuchBucket"]

/-- The control skeleton of `destroyBucket` from `src/utils.ts`: run the
empty step (errors propagate — it is outside the try), then the delete step
inside try/catch, with `Errors.ignore` swallowing the already-gone codes. -/
def destroyBucketCore {σ : Type} (emptyRes : Except AwsErr σ)
    (deleteRes : σ → Except AwsErr σ) : Except AwsErr σ :=
  match emptyRes with
  | .error e => .error e
  | .ok s1 =>
    match deleteRes s1 with
    | .ok s2 => .ok s2
    | .error e => if e.code ∈ ignoredDeleteCodes then .ok s1 else .error e

/-- Model of `destroyBucket` from `src/utils.ts` over the S3 store model. -/
def destroyBucket (s : S3State) (b : String) : Except AwsErr S3State :=
  destroyBucketCore (emptyBucket s b) (fun s1 => deleteBucketOp s1 b)

/-- What a remote operation's serialized error or a caught value looks like:
either a real `Error` instance, or a plain serialized object with optional
`name` and `message` and its remaining own properties. -/
structure SerializedErr where
  name : Option String
  message : Option String
  extraProps : List (String × String)
deriving DecidableEq, Repr

inductive ThrownValue where
  | realError (name message : String)
  | serialized (e : SerializedErr)
deriving DecidableEq, Repr

/-- Result of looking a name up in the Node `global` object: the name is
absent, or present but `new global[name](name)` throws, or present and
constructs an object. -/
inductive GlobalLookup where
  | absent
  | throwsOnNew
  | ctorOk
deriving DecidableEq, Repr

/-- What `normalizeError` produces: the `Error` passed through, an instance
of the globally looked-up constructor (built as `new ctor(name)`, then
`_.extend`-ed with the serialized properties), or the `new Error(message)`
fallback (likewise extended). -/
inductive NormalizedError where
  | existing (name message : String)
  | constructed (ctorName : String) (props : SerializedErr)
  | generic (message : String) (props : SerializedErr)
deriving DecidableEq, Repr

/-- Model of `normalizeError` from `src/utils.ts` (same code in `src/conf.ts`): pass
`Error` instances through; otherwise, when the serialized `name` is truthy
and `name in global`, try `new global[name](name)`; when that fails or never
happened, fall back to `new Error(message)` with `message` defaulting to
`'unspecified'`; finally `_.extend` the original properties on.  The shape of
the `global` object is a parameter. -/
def normalizeError (globalEnv : String → GlobalLookup) :
    ThrownValue → NormalizedError
  | .realError n m => .existing n m
  | .serialized e =>
    let msg := (e.message).getD "unspecified"
    match e.name with
    | some n =>
      if !n.isEmpty && globalEnv n == GlobalLookup.ctorOk then
        .constructed n e
      else
        .generic msg e
    | none => .generic msg e

/-- A remote return value: a plain payload, or an `{error, result}` envelope
whose `result` may itself be a nested envelope. -/
inductive RetTree where
  | value (v : String)
  | env (error : Option ThrownValue) (result : Option RetTree)

/-- Result of `unwrapReturnValue`: either the input returned unchanged, or
`{...ret, error: normalizeError(error)}` at the level where a truthy error
was found. -/
inductive UnwrappedRet where
  | raw (r : RetTree)
  | normalized (error : NormalizedError) (result : Option RetTree)

/-- Model of `unwrapReturnValue` from `src/utils.ts`: when the envelope carries an
error, normalize it in place; otherwise, when `result` is itself an envelope
(has a truthy `error` or `result`), recurse into it; otherwise return the
value unchanged. -/
def unwrapReturnValue (globalEnv : String → GlobalLookup) :
    RetTree → UnwrappedRet
  | .value v => .raw (.value v)
  | .env (some e) res => .normalized (normalizeError globalEnv e) res
  | .env none none => .raw (.env none none)
  | .env none (some r) =>
    match r with
    | .env (some e2) res2 => unwrapReturnValue globalEnv (.env (some e2) res2)
    | .env none (some r2) => unwrapReturnValue globalEnv (.env none (some r2))
    | _ => .raw (.env none (some r))

/-- The CloudFormation world `getStackTemplates` runs against: each stack id
has a template body and a list of nested-stack physical ids (the
`AWS::CloudFormation::Stack` children found by `listSubstacks`). -/
structure StackEnv where
  template : String → Option String
  children : String → List String

/-- Model of `_.flatten(await Promise.all(xs.map f))`: all child traversals must
succeed and their results are concatenated. -/
def flatMapOpt {α : Type} (f : String → Option (List α)) :
    List String → Option (List α)
  | [] => some []
  | x :: xs =>
    match f x, flatMapOpt f xs with
    | some ts, some rest => some (ts ++ rest)
    | _, _ => none

/-- Model of `getStackTemplates` from `src/utils.ts`, with an explicit recursion-depth
fuel: fetch the stack's template, recurse into each nested stack, return the
main template followed by the concatenated nested ones.  `none` models a
failed fetch or exhausted fuel; the source carries no fuel, so its divergence
on cyclic nesting is the statement that no finite fuel suffices. -/
def getStackTemplatesF (env : StackEnv) : Nat → String → Option (List String)
  | 0, _ => none
  | fuel + 1, sid =>
    match env.template sid with
    | none => none
    | some main =>
      if (env.children sid).isEmpty then
        some [main]
      else
        match flatMapOpt (getStackTemplatesF env fuel) (env.children sid) with
        | none => none
        | some nested => some (main :: nested)

/-- The traversal never completes on `sid` however much recursion depth it is
allowed. -/
def getStackTemplatesDiverges (env : StackEnv) (sid : String) : Prop :=
  ∀ fuel, getStackTemplatesF env fuel sid = none

/-- A self-nested (cyclic) stack environment. -/
def cycStackEnv : StackEnv :=
  { template := fun _ => some "template-body", children := fun _ => ["loopy"] }

/-- An acyclic two-level environment: `root` nests `c1` and `c2`. -/
def chainStackEnv : StackEnv :=
  { template := fun sid =>
      if sid = "root" then some "troot"
      else if sid = "c1" then some "tc1"
      else if sid = "c2" then some "tc2"
      else none
    children := fun sid => if sid = "root" then ["c1", "c2"] else [] }

/-- The `([a-zA-Z]+)$` stage group of `MY_CLOUD_STACK_NAME_REGEX`. -/
def isAlphaStage (l : List Char) : Bool :=
  !l.isEmpty && l.all fun c => c.isAlpha

/-- The lazy `(.*?)-ltd-([a-zA-Z]+)$` part of matching
`MY_CLOUD_STACK_NAME_REGEX = /^tdl-(.*?)-ltd-([a-zA-Z]+)$/`: try the shortest
org, extending it one character at a time until the remainder is `-ltd-`
followed by a wholly alphabetic, nonempty stage. -/
def splitLtd (pre rest : List Char) : Option (List Char × List Char) :=
  if "-ltd-".data.isPrefixOf rest && isAlphaStage (rest.drop 5) then
    some (pre, rest.drop 5)
  else
    match rest with
    | [] => none
    | c :: cs => splitLtd (pre ++ [c]) cs

/-- Model of `parseMyCloudStackName` from `src/utils.ts`: match the stack name against
`MY_CLOUD_STACK_NAME_REGEX` and return the `(shortName, stage)` groups. -/
def parseMyCloudStackName (name : List Char) : Option (List Char × List Char) :=
  if "tdl-".data.isPrefixOf name then splitLtd [] (name.drop 4) else none

/-- Model of `shortenString` from `src/utils.ts`: a string within `maxLength` is
returned unchanged; otherwise it becomes its first `maxLength - 6` characters
followed by the first 6 characters of its sha256 hex digest.  The hash
function (`crypto`) is a parameter; the guard throwing on strings shorter
than 6 is kept as the error case. -/
def shortenString (sha : List Char → List Char) (str : List Char)
    (maxLength : Nat) : Except String (List Char) :=
  if (str.length : Int) - (maxLength : Int) ≤ 0 then
    .ok str
  else if str.length < 6 then
    .error "string is too short"
  else
    .ok (str.take (maxLength - 6) ++ (sha str).take 6)

/-- Model of `getServicesStackName` from `src/utils.ts`: parse the primary stack name,
shorten its org part to 14 characters and append `-srvcs`.  A name that does
not match the convention makes `parseMyCloudStackName`'s `.match(...).slice`
throw, modelled as the error case. -/
def getServicesStackName (sha : List Char → List Char) (name : List Char) :
    Except String (List Char) :=
  match parseMyCloudStackName name with
  | none => .error "TypeError: name does not match MY_CLOUD_STACK_NAME_REGEX"
  | some (shortName, _) =>
    match shortenString sha shortName 14 with
    | .error e => .error e
    | .ok shorterName => .ok (shorterName ++ "-srvcs".data)

/-- Items accumulated by the `listStacks` loop all come from the served pages,
pass the filter, and are the `(id, name)` projections of their summaries. -/
theorem listStacksGo_mem {filter : StackSummary → Bool} :
    ∀ (pages : List StacksPage) (items : List (String × String)) (n : Nat),
      listStacksGo filter pages = some (items, n) →
      ∀ x ∈ items, ∃ s : StackSummary,
        (∃ p ∈ pages, s ∈ p.StackSummaries) ∧ filter s = true ∧
          x = (s.StackId, s.StackName) := by
  intro pages
  induction pages with
  | nil => intro items n h; simp [listStacksGo] at h
  | cons p rest ih =>
    intro items n h x hx
    simp only [listStacksGo] at h
    by_cases ht : jsTruthyStr p.NextToken
    · rw [if_pos ht] at h
      cases hr : listStacksGo filter rest with
      | none => rw [hr] at h; cases h
      | some pr =>
        obtain ⟨items2, n2⟩ := pr
        rw [hr] at h
        injection h with h1
        injection h1 with hitems hn
        rw [← hitems] at hx
        rcases List.mem_append.mp hx with hx1 | hx2
        · obtain ⟨s, hs, hx1'⟩ := List.mem_map.mp hx1
          obtain ⟨hsmem, hsf⟩ := List.mem_filter.mp hs
          exact ⟨s, ⟨p, by simp, hsmem⟩, hsf, hx1'.symm⟩
        · obtain ⟨s, hsp, hsf, hxs⟩ := ih items2 n2 hr x hx2
          obtain ⟨q, hq, hsq⟩ := hsp
          exact ⟨s, ⟨q, by simp [hq], hsq⟩, hsf, hxs⟩
    · rw [if_neg ht] at h
      injection h with h1
      injection h1 with hitems hn
      rw [← hitems] at hx
      obtain ⟨s, hs, hx1'⟩ := List.mem_map.mp hx
      obtain ⟨hsmem, hsf⟩ := List.mem_filter.mp hs
      exact ⟨s, ⟨p, by simp, hsmem⟩, hsf, hx1'.symm⟩

/-- C7. A stack status is updateable exactly when it ends in `_COMPLETE` and
does not start with `DELETE_`; consequently `getStackId` only resolves a name
to the id of a stack that matches the name and is in an updateable status —
never one in a delete-related or in-progress status. -/
theorem updateable_status_and_getStackId :
    (∀ status : List Char,
      isUpdateableStatus status = true ↔
        "_COMPLETE".data.isSuffixOf status = true ∧
          "DELETE_".data.isPrefixOf status = false)
    ∧ ∀ (pages : List StacksPage) (name id : String),
        getStackId pages name = some id →
        ∃ s : StackSummary, (∃ p ∈ pages, s ∈ p.StackSummaries) ∧
          s.StackId = id ∧ s.StackName = name ∧
          isUpdateableStatus s.StackStatus = true := by
  constructor
  · intro status
    simp [isUpdateableStatus, Bool.and_eq_true, Bool.not_eq_true']
  · intro pages name id h
    simp only [getStackId] at h
    cases hr : listStacksGo
        (fun s => s.StackName == name && isUpdateableStatus s.StackStatus) pages with
    | none => rw [hr] at h; cases h
    | some pr =>
      obtain ⟨stackList, n⟩ := pr
      rw [hr] at h
      cases stackList with
      | nil => simp at h
      | cons a t =>
        simp only [List.head?, Option.map_some'] at h
        obtain ⟨s, hsp, hsf, hxs⟩ :=
          listStacksGo_mem pages (a :: t) n hr a (by simp)
        have hname : s.StackName = name := by
          have := (Bool.and_eq_true _ _).mp hsf
          exact eq_of_beq this.1
        have hupd : isUpdateableStatus s.StackStatus = true := by
          have := (Bool.and_eq_true _ _).mp hsf
          exact this.2
        refine ⟨s, hsp, ?_, hname, hupd⟩
        have : a.1 = id := by
          injection h
        rw [hxs] at this
        exact this

/-- Concrete pages used to witness `updateable_status_and_getStackId`. -/
def c7Pages : List StacksPage :=
  [{ StackSummaries :=
      [{ StackId := "arn-1", StackName := "tdl-acme-ltd-dev",
         StackStatus := "CREATE_COMPLETE".data }],
     NextToken := none }]

theorem updateable_status_and_getStackId_witness :
    ∃ s : StackSummary, (∃ p ∈ c7Pages, s ∈ p.StackSummaries) ∧
      s.StackId = "arn-1" ∧ s.StackName = "tdl-acme-ltd-dev" ∧
      isUpdateableStatus s.StackStatus = true :=
  updateable_status_and_getStackId.2 c7Pages "tdl-acme-ltd-dev" "arn-1" (by decide)

/-- Pagination lemma for `listStackResources`: over pages whose tokens are all
truthy except the last, the loop returns the concatenation of the filtered
page items in page order, after exactly one list call per page. -/
theorem listStackResourcesGo_concat (filter : StackResourceSummary → Bool) :
    ∀ (ps : List ResourcesPage) (plast : ResourcesPage),
      (∀ p ∈ ps, jsTruthyStr p.NextToken = true) →
      jsTruthyStr plast.NextToken = false →
      listStackResourcesGo filter (ps ++ [plast]) =
        some (((ps ++ [plast]).map fun p =>
            p.StackResourceSummaries.filter filter).flatten,
          ps.length + 1) := by
  intro ps
  induction ps with
  | nil =>
    intro plast _ hlast
    simp [listStackResourcesGo, hlast]
  | cons p rest ih =>
    intro plast hps hlast
    have hp : jsTruthyStr p.NextToken = true := hps p (by simp)
    have hrest : ∀ q ∈ rest, jsTruthyStr q.NextToken = true :=
      fun q hq => hps q (by simp [hq])
    simp only [List.cons_append, listStackResourcesGo, hp, if_true, List.append_eq]
    rw [ih plast hrest hlast]
    simp [Nat.add_comm, Nat.add_assoc, Nat.add_left_comm]

/-- Pagination lemma for `listStacks`, analogous, with the summaries projected
to `(id, name)` records. -/
theorem listStacksGo_concat (filter : StackSummary → Bool) :
    ∀ (ps : List StacksPage) (plast : StacksPage),
      (∀ p ∈ ps, jsTruthyStr p.NextToken = true) →
      jsTruthyStr plast.NextToken = false →
      listStacksGo filter (ps ++ [plast]) =
        some (((ps ++ [plast]).map fun p =>
            (p.StackSummaries.filter filter).map fun s => (s.StackId, s.StackName)).flatten,
          ps.length + 1) := by
  intro ps
  induction ps with
  | nil =>
    intro plast _ hlast
    simp [listStacksGo, hlast]
  | cons p rest ih =>
    intro plast hps hlast
    have hp : jsTruthyStr p.NextToken = true := hps p (by simp)
    have hrest : ∀ q ∈ rest, jsTruthyStr q.NextToken = true :=
      fun q hq => hps q (by simp [hq])
    simp only [List.cons_append, listStacksGo, hp, if_true, List.append_eq]
    rw [ih plast hrest hlast]
    simp [Nat.add_comm, Nat.add_assoc, Nat.add_left_comm]

/-- C8. For every finite backend page sequence whose continuation tokens are
truthy on all but the final page, the paginated stack-resource and stack
listings return exactly the concatenation of the (filtered) page items in
original order, issue one list call per served page (re-using the last token
each time), and stop exactly at the page with no token. -/
theorem pagination_exact_concat :
    (∀ (filter : StackResourceSummary → Bool) (ps : List ResourcesPage)
        (plast : ResourcesPage),
      (∀ p ∈ ps, jsTruthyStr p.NextToken = true) →
      jsTruthyStr plast.NextToken = false →
      listStackResourcesGo filter (ps ++ [plast]) =
        some (((ps ++ [plast]).map fun p =>
            p.StackResourceSummaries.filter filter).flatten,
          ps.length + 1))
    ∧ (∀ (filter : StackSummary → Bool) (ps : List StacksPage)
        (plast : StacksPage),
      (∀ p ∈ ps, jsTruthyStr p.NextToken = true) →
      jsTruthyStr plast.NextToken = false →
      listStacksGo filter (ps ++ [plast]) =
        some (((ps ++ [plast]).map fun p =>
            (p.StackSummaries.filter filter).map fun s => (s.StackId, s.StackName)).flatten,
          ps.length + 1)) :=
  ⟨listStackResourcesGo_concat, listStacksGo_concat⟩

/-- Concrete two-page backend used to witness `pagination_exact_concat`. -/
def c8r1 : StackResourceSummary :=
  { LogicalResourceId := "BucketA", PhysicalResourceId := "bucket-a",
    ResourceType := "AWS::S3::Bucket" }

def c8r2 : StackResourceSummary :=
  { LogicalResourceId := "TableB", PhysicalResourceId := "table-b",
    ResourceType := "AWS::DynamoDB::Table" }

theorem pagination_exact_concat_witness :
    listStackResourcesGo (fun _ => true)
        ([{ StackResourceSummaries := [c8r1], NextToken := some "tok1" }] ++
          [{ StackResourceSummaries := [c8r2], NextToken := none }]) =
      some ((([{ StackResourceSummaries := [c8r1], NextToken := some "tok1" },
          { StackResourceSummaries := [c8r2], NextToken := none }] :
            List ResourcesPage).map fun p =>
          p.StackResourceSummaries.filter fun _ => true).flatten, 2) :=
  pagination_exact_concat.1 (fun _ => true)
    [{ StackResourceSummaries := [c8r1], NextToken := some "tok1" }]
    { StackResourceSummaries := [c8r2], NextToken := none }
    (by decide) (by decide)

/-- C10 counterexample. `getLongFunctionName` is not idempotent: with stack
name `a` and function name `ba`, one application yields `a-ba`, whose last
occurrence of `a` is at index 2, so a second application prefixes again and
yields `a-a-ba`. -/
theorem longFunctionName_not_idempotent :
    getLongFunctionName "a".data (getLongFunctionName "a".data "ba".data) ≠
      getLongFunctionName "a".data "ba".data := by
  decide

/-- C10 amended. `getLongFunctionName` returns the function name unchanged
when its `lastIndexOf(stackName)` is 0, and is idempotent whenever either the
input or the prefixed output has its last occurrence of the stack name at
index 0 (which holds for all realistic names, but not universally, as the
counterexample shows). -/
theorem longFunctionName_conditional_idempotence :
    ∀ s x : List Char,
      jsLastIndexOf s x = some 0 ∨ jsLastIndexOf s (s ++ '-' :: x) = some 0 →
      getLongFunctionName s (getLongFunctionName s x) = getLongFunctionName s x
        ∧ (jsLastIndexOf s x = some 0 → getLongFunctionName s x = x) := by
  intro s x h
  constructor
  · rcases h with h | h
    · simp [getLongFunctionName, h]
    · by_cases h0 : jsLastIndexOf s x = some 0
      · simp [getLongFunctionName, h0]
      · simp [getLongFunctionName, h0, h]
  · intro h0
    simp [getLongFunctionName, h0]

theorem longFunctionName_conditional_idempotence_witness :
    getLongFunctionName "ab".data (getLongFunctionName "ab".data "abc".data) =
        getLongFunctionName "ab".data "abc".data
      ∧ (jsLastIndexOf "ab".data "abc".data = some 0 →
          getLongFunctionName "ab".data "abc".data = "abc".data) :=
  longFunctionName_conditional_idempotence "ab".data "abc".data (Or.inl (by decide))

/-- C1. The invocation envelope contract: `invoke` is total and produces an
envelope that is an error exactly when it is not a result; any throw from the
underlying invocation (in particular a remote call with a function-level
error marker or a status of at least 300) becomes `{error}`; a successful
remote call becomes `{result}` carrying the parsed payload; and
`invokeAndReturn` returns the result when the envelope has none and rethrows
the error otherwise. -/
theorem invoke_envelope_contract :
    (∀ (ε α : Type) (u : Except ε α),
      (confInvoke u).isError = !(confInvoke u).isResult)
    ∧ (∀ (ε α : Type) (e : ε), @confInvoke ε α (.error e) = .error e)
    ∧ (∀ (ε α : Type) (parse : String → Except ε α) (r : LambdaInvokeResult),
        (jsTruthyStr r.FunctionError || 300 ≤ r.StatusCode) = true →
        ∃ e, confInvoke (invokeRemote parse r) = .error e)
    ∧ (∀ (ε α : Type) (parse : String → Except ε α) (r : LambdaInvokeResult)
        (p : String) (v : α),
        jsTruthyStr r.FunctionError = false → r.StatusCode < 300 →
        r.Payload = some p → parse p = .ok v →
        confInvoke (invokeRemote parse r) = .result v)
    ∧ (∀ (ε α : Type) (u : Except ε α),
        (∀ e, confInvoke u = .error e → confInvokeAndReturn u = .error e)
        ∧ (∀ v, confInvoke u = .result v → confInvokeAndReturn u = .ok v)) := by
  refine ⟨?_, ?_, ?_, ?_, ?_⟩
  · intro ε α u; cases u <;> rfl
  · intro ε α e; rfl
  · intro ε α parse r h
    refine ⟨?_, ?_⟩
    · exact
        (if jsTruthyStr r.Payload then .errorObject ((r.Payload).getD "")
        else
          match r.FunctionError with
          | some fe => .errorObject fe
          | none => .jsTypeError)
    · simp only [invokeRemote, h, if_true, confInvoke]
  · intro ε α parse r p v hf hs hp hv
    have hcond : (jsTruthyStr r.FunctionError || 300 ≤ r.StatusCode) = false := by
      simp [hf, Nat.not_le.mpr hs]
    simp [invokeRemote, hcond, hp, hv, confInvoke]
  · intro ε α u
    constructor
    · intro e he
      cases u with
      | error e2 =>
        simp only [confInvoke] at he
        injection he with he'
        simp [confInvokeAndReturn, confInvoke, he']
      | ok v => simp [confInvoke] at he
    · intro v hv
      cases u with
      | error e2 => simp [confInvoke] at hv
      | ok v2 =>
        simp only [confInvoke] at hv
        injection hv with hv'
        simp [confInvokeAndReturn, confInvoke, hv']

theorem invoke_envelope_contract_witness :
    (∃ e, confInvoke (invokeRemote (fun s => (Except.ok s.length : Except String Nat))
        { StatusCode := 200, Payload := some "boom", FunctionError := some "Unhandled" }) =
      .error e)
    ∧ confInvoke (invokeRemote (fun s => (Except.ok s.length : Except String Nat))
        { StatusCode := 200, Payload := some "xy", FunctionError := none }) =
      .result 2 :=
  ⟨invoke_envelope_contract.2.2.1 String Nat
      (fun s => (Except.ok s.length : Except String Nat))
      { StatusCode := 200, Payload := some "boom", FunctionError := some "Unhandled" }
      (by decide),
    invoke_envelope_contract.2.2.2.1 String Nat
      (fun s => (Except.ok s.length : Except String Nat))
      { StatusCode := 200, Payload := some "xy", FunctionError := none }
      "xy" 2 (by decide) (by decide) rfl rfl⟩

/-- After exactly `k` cleanup-in-progress failures followed by a success the
delete loop succeeds, having waited 5000 ms before each retry. -/
theorem deleteStackRun_replicate (msg : String)
    (hmsg : jsIncludes cleanupInProgressToken.data msg.data = true) :
    ∀ (k : Nat) (rest : List DeleteAttempt),
      deleteStackRun (List.replicate k (.failure msg) ++ .success :: rest) =
        some (.ok (List.replicate k 5000)) := by
  intro k
  induction k with
  | zero => intro rest; simp [deleteStackRun]
  | succ n ih =>
    intro rest
    simp only [List.replicate_succ, List.cons_append, deleteStackRun, hmsg, if_true,
      List.append_eq]
    rw [ih rest]

/-- C3. `deleteStack` retries exactly `k` times with a fixed 5000 ms delay
when the backend raises the `UPDATE_ROLLBACK_COMPLETE_CLEANUP_IN_PROGRESS`
conflict exactly `k` times before succeeding, then returns the deferred
`stackDeleteComplete` waiter; any error whose message lacks that marker
propagates from the first attempt with no retry and no delay. -/
theorem deleteStack_retry_contract :
    ∀ (stackName msg : String) (k : Nat) (rest : List DeleteAttempt),
      (jsIncludes cleanupInProgressToken.data msg.data = true →
        deleteStack stackName
            (List.replicate k (.failure msg) ++ .success :: rest) =
          some (.ok (List.replicate k 5000,
            { preDelayMs := 5000, event := "stackDeleteComplete",
              stackName := stackName })))
      ∧ (jsIncludes cleanupInProgressToken.data msg.data = false →
        deleteStack stackName (.failure msg :: rest) =
          some (.error ([], msg))) := by
  intro stackName msg k rest
  constructor
  · intro hmsg
    simp [deleteStack, deleteStackRun_replicate msg hmsg k rest]
  · intro hmsg
    simp [deleteStack, deleteStackRun, hmsg]

theorem deleteStack_retry_contract_witness :
    deleteStack "tdl-acme-ltd-dev"
        (List.replicate 2
            (.failure ("stack is in UPDATE_ROLLBACK_COMPLETE_CLEANUP_IN_PROGRESS state")) ++
          .success :: []) =
      some (.ok (List.replicate 2 5000,
        { preDelayMs := 5000, event := "stackDeleteComplete",
          stackName := "tdl-acme-ltd-dev" })) :=
  (deleteStack_retry_contract "tdl-acme-ltd-dev"
    "stack is in UPDATE_ROLLBACK_COMPLETE_CLEANUP_IN_PROGRESS state" 2 []).1
    (by decide)

/-- The all-absent deploy options object: no positional arguments, no `all`,
no deployable flags. -/
def emptyDeployOpts : DeployOpts :=
  { args := [], all := none, bot := none, style := none, models := none,
    modelsPack := none, terms := none }

/-- C2 counterexample. A deploy request with no deployable selected and `all`
unset does NOT fail with InvalidInput: `normalizeDeployOpts` computes
`all = opts.all || !_.size(getDeployables(opts))`, which is true for an empty
selection, so the options are extended to select every deployable (the
"you did not indicate anything" InvalidInput branch is unreachable). -/
theorem deploy_no_selection_defaults_to_all :
    normalizeDeployOpts emptyDeployOpts =
      .ok { args := [], all := none, bot := some true, style := some true,
            models := some true, modelsPack := some true, terms := some true }
    ∧ ∀ e, normalizeDeployOpts emptyDeployOpts ≠ .error e := by
  have h0 : normalizeDeployOpts emptyDeployOpts =
      .ok { args := [], all := none, bot := some true, style := some true,
            models := some true, modelsPack := some true, terms := some true } := rfl
  refine ⟨h0, fun e h => ?_⟩
  rw [h0] at h
  simp at h

/-- C2 amended. A deploy request with no deployable selected — whether `all`
is unset or explicitly true — normalizes to options selecting every
deployable category, and the assembled deploy item set then contains an entry
for each deployable whose source is present (`terms` is always assigned,
`null` standing for deletion; the models pack is assembled whenever any model
or lens source exists). -/
theorem deploy_all_or_empty_selects_every_deployable :
    ∀ (o : DeployOpts) (packFn : List String → List String → String)
      (src : ConfSources),
      o.args = [] → o.bot = none → o.style = none → o.models = none →
      o.modelsPack = none → o.terms = none →
      (o.all = none ∨ o.all = some true) →
      normalizeDeployOpts o =
        .ok { o with bot := some true, style := some true, models := some true,
                     modelsPack := some true, terms := some true }
      ∧ ∃ parts, getDeployItems packFn src o = .ok parts
          ∧ parts.style = some src.style
          ∧ parts.terms.isSome = true
          ∧ ((src.models = [] ∧ src.lenses = []) ∨
              parts.modelsPack = some (packFn src.models src.lenses))
          ∧ parts.bot = some src.bot := by
  intro o packFn src hargs hbot hstyle hmodels hmp hterms hall
  obtain ⟨args, all, bot, style, models, modelsPack, terms⟩ := o
  simp only at hargs hbot hstyle hmodels hmp hterms
  subst hargs hbot hstyle hmodels hmp hterms
  have hnorm : normalizeDeployOpts
      { args := [], all := all, bot := none, style := none, models := none,
        modelsPack := none, terms := none } =
      .ok { args := [], all := all, bot := some true, style := some true,
            models := some true, modelsPack := some true, terms := some true } := by
    rcases hall with h | h <;> simp only at h <;> subst h <;> rfl
  refine ⟨hnorm,
    ⟨{ style := some src.style,
       terms := some (match src.termsSrc with
         | some s => if s.isEmpty then none else some s
         | none => none),
       modelsPack := if !(src.models.isEmpty && src.lenses.isEmpty) then
           some (packFn src.models src.lenses)
         else none,
       bot := some src.bot }, ?_, rfl, rfl, ?_, rfl⟩⟩
  · simp only [getDeployItems]
    rw [hnorm]
    rfl
  · by_cases hsrc : src.models.isEmpty && src.lenses.isEmpty
    · left
      have := (Bool.and_eq_true _ _).mp hsrc
      exact ⟨List.isEmpty_iff.mp this.1, List.isEmpty_iff.mp this.2⟩
    · right
      simp [hsrc]

theorem deploy_all_or_empty_selects_every_deployable_witness :
    normalizeDeployOpts emptyDeployOpts =
      .ok { emptyDeployOpts with bot := some true, style := some true,
                                 models := some true, modelsPack := some true,
                                 terms := some true }
    ∧ ∃ parts,
      getDeployItems (fun ms ls => String.intercalate "," (ms ++ ls))
          { style := some "styleJson", termsSrc := some "termsText",
            models := ["m1"], lenses := [], bot := some "botJson" }
          emptyDeployOpts = .ok parts
        ∧ parts.style = some (some "styleJson")
        ∧ parts.terms.isSome = true
        ∧ ((["m1"] = ([] : List String) ∧ ([] : List String) = ([] : List String)) ∨
            parts.modelsPack = some ((fun ms ls => String.intercalate "," (ms ++ ls)) ["m1"] []))
        ∧ parts.bot = some (some "botJson") :=
  deploy_all_or_empty_selects_every_deployable emptyDeployOpts
    (fun ms ls => String.intercalate "," (ms ++ ls))
    { style := some "styleJson", termsSrc := some "termsText",
      models := ["m1"], lenses := [], bot := some "botJson" }
    rfl rfl rfl rfl rfl rfl (Or.inl rfl)

/-- Emptying maps each stored bucket entry, so a later find sees the emptied
version list. -/
theorem find?_emptied (b : String) :
    ∀ l : List (String × List String),
      List.find? (fun p => p.1 == b)
          (l.map fun p => if p.1 == b then (p.1, ([] : List String)) else p) =
        (List.find? (fun p => p.1 == b) l).map fun p => (p.1, ([] : List String)) := by
  intro l
  induction l with
  | nil => simp
  | cons p t ih =>
    simp only [List.map_cons]
    cases hp : p.1 == b with
    | true => simp [List.find?_cons, hp]
    | false =>
      rw [if_neg (by decide), List.find?_cons, List.find?_cons]
      simp only [hp, ih]

/-- Looking up the destroyed bucket in the emptied store. -/
theorem lookup_emptied (s : S3State) (b : String) :
    S3State.lookup
        (S3State.mk (s.buckets.map fun p => if p.1 == b then (p.1, []) else p)) b =
      (s.lookup b).map fun _ => ([] : List String) := by
  simp only [S3State.lookup, find?_emptied]
  cases List.find? (fun p => p.1 == b) s.buckets <;> simp

/-- After filtering the bucket out, it can no longer be found. -/
theorem find?_removed (l : List (String × List String)) (b : String) :
    List.find? (fun p => p.1 == b) (l.filter fun p => !(p.1 == b)) = none := by
  rw [List.find?_eq_none]
  intro x hx
  have hq := (List.mem_filter.mp hx).2
  simp only [Bool.not_eq_true'] at hq
  simp [hq]

/-- C4. `destroyBucket` empties the bucket and then deletes it: on a bucket
that does not exist it succeeds (the `NoSuchBucket` raised by the delete step
is in the ignored already-gone set), on an existing bucket the bucket and all
its versions are gone afterwards, an error from the empty step propagates
untouched, and an error from the delete step propagates exactly when its code
is not `ResourceNotFoundException` or `NoSuchBucket`. -/
theorem destroyBucket_idempotent_teardown :
    (∀ (s : S3State) (b : String), s.lookup b = none →
      ∃ s2, destroyBucket s b = .ok s2 ∧ s2.lookup b = none)
    ∧ (∀ (s : S3State) (b : String) (vs : List String), s.lookup b = some vs →
      ∃ s2, destroyBucket s b = .ok s2 ∧ s2.lookup b = none)
    ∧ (∀ (σ : Type) (e : AwsErr) (d : σ → Except AwsErr σ),
      destroyBucketCore (.error e) d = .error e)
    ∧ (∀ (σ : Type) (s1 : σ) (d : σ → Except AwsErr σ) (e : AwsErr),
      d s1 = .error e → e.code ∉ ignoredDeleteCodes →
      destroyBucketCore (.ok s1) d = .error e)
    ∧ (∀ (σ : Type) (s1 : σ) (d : σ → Except AwsErr σ) (e : AwsErr),
      d s1 = .error e → e.code ∈ ignoredDeleteCodes →
      destroyBucketCore (.ok s1) d = .ok s1) := by
  refine ⟨?_, ?_, ?_, ?_, ?_⟩
  · intro s b h
    have h1 : S3State.lookup
        (S3State.mk (s.buckets.map fun p => if p.1 == b then (p.1, []) else p)) b =
        none := by
      rw [lookup_emptied, h]; rfl
    have hd : deleteBucketOp
        (S3State.mk (s.buckets.map fun p => if p.1 == b then (p.1, []) else p)) b =
        .error { code := "NoSuchBucket" } := by
      unfold deleteBucketOp
      rw [h1]
    refine ⟨_, ?_, h1⟩
    simp only [destroyBucket, emptyBucket, destroyBucketCore]
    rw [hd]
    rfl
  · intro s b vs h
    have h1 : S3State.lookup
        (S3State.mk (s.buckets.map fun p => if p.1 == b then (p.1, []) else p)) b =
        some [] := by
      rw [lookup_emptied, h]; rfl
    have hd : deleteBucketOp
        (S3State.mk (s.buckets.map fun p => if p.1 == b then (p.1, []) else p)) b =
        .ok (S3State.mk ((s.buckets.map fun p => if p.1 == b then (p.1, []) else p).filter fun p => !(p.1 == b))) := by
      unfold deleteBucketOp
      rw [h1]
    refine ⟨S3State.mk ((s.buckets.map fun p => if p.1 == b then (p.1, []) else p).filter fun p => !(p.1 == b)), ?_, ?_⟩
    · simp only [destroyBucket, emptyBucket, destroyBucketCore]
      rw [hd]
    · simp only [S3State.lookup, find?_removed, Option.map_none']
  · intro σ e d
    rfl
  · intro σ s1 d e hd he
    simp only [destroyBucketCore]
    rw [hd]
    exact if_neg he
  · intro σ s1 d e hd he
    simp only [destroyBucketCore]
    rw [hd]
    exact if_pos he

theorem destroyBucket_idempotent_teardown_witness :
    (∃ s2, destroyBucket { buckets := [] } "conf-bucket" = .ok s2 ∧
      s2.lookup "conf-bucket" = none)
    ∧ destroyBucketCore (.ok (0 : Nat))
        (fun _ => .error { code := "AccessDenied" }) = .error { code := "AccessDenied" } :=
  ⟨destroyBucket_idempotent_teardown.1 { buckets := [] } "conf-bucket" rfl,
    destroyBucket_idempotent_teardown.2.2.2.1 Nat 0
      (fun _ => .error { code := "AccessDenied" }) { code := "AccessDenied" }
      rfl (by decide)⟩

/-- The Node `global` object as seen by `normalizeError`: the standard
built-in error constructors exist and construct; an application-level kind
name is not a global. -/
def nodeGlobalEnv : String → GlobalLookup := fun n =>
  if n ∈ ["Error", "TypeError", "RangeError", "SyntaxError",
      "ReferenceError", "EvalError", "URIError"] then
    GlobalLookup.ctorOk
  else
    GlobalLookup.absent

/-- C5 counterexample. A serialized error whose declared kind is an
application-level name (not a global constructor) is collapsed into a generic
`Error` built from its message — the reconstruction is a free-form
constructor-by-name lookup in `global` with a generic catch-all fallback, not
a match against a fixed error taxonomy. -/
theorem normalizeError_collapses_to_generic :
    normalizeError nodeGlobalEnv
        (.serialized { name := some "CloudServiceError", message := some "boom",
                       extraProps := [] }) =
      .generic "boom"
        { name := some "CloudServiceError", message := some "boom",
          extraProps := [] } := by
  rfl

/-- C5 amended. `normalizeError` passes real `Error`s through; for a
serialized object it looks the truthy `name` up in the global scope and, when
it is a constructor there, builds that constructor's instance; in every other
case (name absent, falsy, not a global, or construction throwing) it falls
back to a generic `Error` whose message defaults to `unspecified`; and
`unwrapReturnValue` normalizes the error found at the first or second
envelope level this way. -/
theorem normalizeError_name_lookup_contract :
    (∀ (g : String → GlobalLookup) (n m : String),
      normalizeError g (.realError n m) = .existing n m)
    ∧ (∀ (g : String → GlobalLookup) (e : SerializedErr) (n : String),
        e.name = some n → n.isEmpty = false → g n = .ctorOk →
        normalizeError g (.serialized e) = .constructed n e)
    ∧ (∀ (g : String → GlobalLookup) (e : SerializedErr) (n m : String),
        e.name = some n → g n ≠ .ctorOk → e.message = some m →
        normalizeError g (.serialized e) = .generic m e)
    ∧ (∀ (g : String → GlobalLookup) (e : SerializedErr),
        e.name = none →
        normalizeError g (.serialized e) =
          .generic ((e.message).getD "unspecified") e)
    ∧ (∀ (g : String → GlobalLookup) (e : ThrownValue) (res : Option RetTree),
        unwrapReturnValue g (.env (some e) res) =
          .normalized (normalizeError g e) res)
    ∧ (∀ (g : String → GlobalLookup) (e : ThrownValue) (res : Option RetTree),
        unwrapReturnValue g (.env none (some (.env (some e) res))) =
          .normalized (normalizeError g e) res) := by
  refine ⟨?_, ?_, ?_, ?_, ?_, ?_⟩
  · intro g n m
    rfl
  · intro g e n hn hne hg
    have hbeq : (g n == GlobalLookup.ctorOk) = true := by
      simp [hg]
    simp [normalizeError, hn, hne, hbeq]
  · intro g e n m hn hg hm
    have hbeq : (g n == GlobalLookup.ctorOk) = false := by
      simp [hg]
    simp [normalizeError, hn, hm, hbeq]
  · intro g e hn
    simp [normalizeError, hn]
  · intro g e res
    rfl
  · intro g e res
    rfl

theorem normalizeError_name_lookup_contract_witness :
    normalizeError nodeGlobalEnv
        (.serialized { name := some "TypeError", message := some "x is not a function",
                       extraProps := [] }) =
      .constructed "TypeError"
        { name := some "TypeError", message := some "x is not a function",
          extraProps := [] } :=
  normalizeError_name_lookup_contract.2.1 nodeGlobalEnv
    { name := some "TypeError", message := some "x is not a function",
      extraProps := [] }
    "TypeError" rfl rfl rfl

/-- On the cyclic environment the traversal yields nothing at any depth. -/
theorem cycStackEnv_none : ∀ fuel sid,
    getStackTemplatesF cycStackEnv fuel sid = none := by
  intro fuel
  induction fuel with
  | zero => intro sid; rfl
  | succ n ih =>
    intro sid
    have ht : cycStackEnv.template sid = some "template-body" := rfl
    have hch : cycStackEnv.children sid = ["loopy"] := rfl
    simp [getStackTemplatesF, flatMapOpt, ih, ht, hch]

/-- C6 counterexample. The recursive nested-stack template enumeration does
not bound its recursion depth: on a cyclic nesting environment no finite
recursion depth produces a result — the traversal diverges rather than
terminating. -/
theorem nested_enumeration_cyclic_diverges :
    getStackTemplatesDiverges cycStackEnv "loopy" :=
  fun fuel => cycStackEnv_none fuel "loopy"

/-- C6 amended. The enumeration carries no depth bound: on acyclic nesting it
terminates once the recursion depth covers the nesting (returning the main
template followed by the concatenated nested templates), but on cyclic
nesting no recursion depth suffices. -/
theorem nested_enumeration_unbounded :
    getStackTemplatesDiverges cycStackEnv "loopy"
    ∧ ∀ fuel, 2 ≤ fuel →
        getStackTemplatesF chainStackEnv fuel "root" =
          some ["troot", "tc1", "tc2"] := by
  constructor
  · exact fun fuel => cycStackEnv_none fuel "loopy"
  · intro fuel h
    obtain ⟨n, rfl⟩ : ∃ n, fuel = n + 2 := ⟨fuel - 2, by omega⟩
    rfl

theorem nested_enumeration_unbounded_witness :
    getStackTemplatesF chainStackEnv 2 "root" = some ["troot", "tc1", "tc2"] :=
  nested_enumeration_unbounded.2 2 (by decide)

/-- C9. For every stack name matching the naming convention, the derived
companion (services) stack name is the shortened org part followed by
`-srvcs`, at most 20 characters in all (the shortened part at most 14): an
org of at most 14 characters is used as is, a longer one is truncated to its
first 8 characters followed by the first 6 characters of its sha256 digest.
Determinism is inherent: the embedding is a pure function of the name. -/
theorem servicesStackName_contract :
    ∀ (sha : List Char → List Char) (name org stage : List Char),
      (∀ s, (sha s).length = 64) →
      parseMyCloudStackName name = some (org, stage) →
      ∃ pre, getServicesStackName sha name = .ok (pre ++ "-srvcs".data)
        ∧ pre.length ≤ 14
        ∧ (pre ++ "-srvcs".data).length ≤ 20
        ∧ (org.length ≤ 14 → pre = org)
        ∧ (14 < org.length → pre = org.take 8 ++ (sha org).take 6) := by
  intro sha name org stage hsha hparse
  by_cases hlen : org.length ≤ 14
  · refine ⟨org, ?_, hlen, ?_, fun _ => rfl, fun hgt => absurd hgt (by omega)⟩
    · simp [getServicesStackName, hparse, shortenString, hlen]
    · have hl : (org ++ "-srvcs".data).length = org.length + 6 := by
        simp [List.length_append]
      omega
  · push_neg at hlen
    have hnle : ¬(org.length ≤ 14) := by omega
    have hc6 : ¬(org.length < 6) := by omega
    have h8 : (org.take 8).length = 8 := by
      simp [List.length_take]
      omega
    have h6 : ((sha org).take 6).length = 6 := by
      simp [List.length_take, hsha org]
    refine ⟨org.take 8 ++ (sha org).take 6, ?_, ?_, ?_,
      fun hle => absurd hle (by omega), fun _ => rfl⟩
    · simp [getServicesStackName, hparse, shortenString, hnle, hc6]
    · simp only [List.length_append, h8, h6]
      omega
    · have hl : ((org.take 8 ++ (sha org).take 6) ++ "-srvcs".data).length = 20 := by
        simp [List.length_append, h8, h6]
      omega

theorem servicesStackName_contract_witness :
    ∃ pre, getServicesStackName (fun _ => List.replicate 64 'a')
        "tdl-acme-ltd-dev".data = .ok (pre ++ "-srvcs".data)
      ∧ pre.length ≤ 14
      ∧ (pre ++ "-srvcs".data).length ≤ 20
      ∧ ("acme".data.length ≤ 14 → pre = "acme".data)
      ∧ (14 < "acme".data.length →
          pre = "acme".data.take 8 ++
            ((fun _ => List.replicate 64 'a') "acme".data).take 6) :=
  servicesStackName_contract (fun _ => List.replicate 64 'a')
    "tdl-acme-ltd-dev".data "acme".data "dev".data
    (fun s => by simp) (by decide)
